import Mathlib

/-!
Shallow embedding of the order/inventory core of `src/restaurant_gui.py`
(the Campus Bites order station).  Python ints are modelled as `Int`,
Python float currency amounts as exact rationals `ℚ` (the specification's
full-precision policy), and the in-place mutation `p.stock -= qty` as a
functional update of the first matching list entry, which is exactly the
object that `Inventory.get_product` returns.
-/

namespace Restaurant

/-- Mirrors class `Product` (restaurant_gui.py line 18): id, name, price,
stock. -/
structure Product where
  id : Int
  name : String
  price : ℚ
  stock : Int
  deriving Repr, DecidableEq

/-- Mirrors class `Inventory` (line 26): the list `self.products`.  The
`filename` field and the load/save placeholders are file-I/O glue outside
every claim and carry no state the core reads, so they are omitted. -/
structure Inventory where
  products : List Product
  deriving Repr, DecidableEq

/-- The loop inside `Inventory.get_product` (lines 40-44): the first product
in list order whose id matches, else `None`. -/
def findProduct : List Product → Int → Option Product
  | [], _ => none
  | p :: ps, pid => if p.id = pid then some p else findProduct ps pid

/-- Mirrors `Inventory.get_product` (lines 40-44). -/
def Inventory.get_product (inv : Inventory) (pid : Int) : Option Product :=
  findProduct inv.products pid

/-- Mirrors `Inventory.get_stock` (lines 46-48): stock of the product found,
0 when the id is absent. -/
def Inventory.get_stock (inv : Inventory) (pid : Int) : Int :=
  match inv.get_product pid with
  | some p => p.stock
  | none => 0

/-- The effect of the Python statement `p.stock -= qty`, where `p` is the
object `get_product` returned: the first product with the given id has its
stock reduced and every other list entry is untouched. -/
def updateStockFirst : List Product → Int → Int → List Product
  | [], _, _ => []
  | p :: ps, pid, qty =>
      if p.id = pid then { p with stock := p.stock - qty } :: ps
      else p :: updateStockFirst ps pid qty

/-- Mirrors `Inventory.reduce_stock` (lines 50-60): fails when the id is
absent, when `qty <= 0`, or when `p.stock < qty`; otherwise subtracts `qty`
and reports `true`.  The resulting inventory is returned alongside the
flag. -/
def Inventory.reduce_stock (inv : Inventory) (pid qty : Int) : Bool × Inventory :=
  match inv.get_product pid with
  | none => (false, inv)
  | some p =>
      if qty ≤ 0 then (false, inv)
      else if p.stock ≥ qty then (true, ⟨updateStockFirst inv.products pid qty⟩)
      else (false, inv)

/-- Mirrors class `Order` (line 63): `self.items`, a list of (product, qty)
pairs in insertion order. -/
structure Order where
  items : List (Product × Int)
  deriving Repr, DecidableEq

/-- Mirrors `Order.add_item` (lines 68-69): unconditional append at the
end. -/
def Order.add_item (o : Order) (product : Product) (qty : Int) : Order :=
  ⟨o.items ++ [(product, qty)]⟩

/-- Mirrors `Order.remove_last_item` (lines 71-73): pop the last line when
the list is non-empty, otherwise do nothing. -/
def Order.remove_last_item (o : Order) : Order :=
  if o.items.isEmpty then o else ⟨o.items.dropLast⟩

/-- Mirrors `Order.total` (lines 75-76): the sum of `p.price * q` over the
lines, read against each line's product record. -/
def Order.total (o : Order) : ℚ :=
  (o.items.map fun pq => pq.1.price * (pq.2 : ℚ)).sum

/-- The configuration constant `TAX_RATE = 0.07` (line 13). -/
def TAX_RATE : ℚ := 7 / 100

/-- Outcome of the quantity validation in `RestaurantApp.add_to_order`. -/
inductive AddResult where
  | invalidQuantity
  | added
  deriving Repr, DecidableEq

/-- Outcome of `RestaurantApp._on_checkout`: the three observable results of
the handler (empty-order rejection, full commit, or failure at a line with
the item id, requested quantity and currently available stock). -/
inductive CheckoutResult where
  | emptyOrder
  | committedFull
  | failedAtLine (index : Nat) (itemId requestedQty availableQty : Int)
  deriving Repr, DecidableEq

/-- Quantity handling of `RestaurantApp.add_to_order` (lines 320-331):
`int(self.qty_var.get())` either raises `ValueError` — a non-integer entry,
modelled as `none` — or yields an integer; a non-positive integer is also
rejected; only after both checks does `Order.add_item` run. -/
def add_to_order (o : Order) (product : Product) (qtyInput : Option Int) :
    Order × AddResult :=
  match qtyInput with
  | none => (o, AddResult.invalidQuantity)
  | some qty =>
      if qty ≤ 0 then (o, AddResult.invalidQuantity)
      else (o.add_item product qty, AddResult.added)

/-- Mirrors `RestaurantApp.update_order_summary` (lines 349-357), with the
configuration constant `TAX_RATE` passed as a parameter: subtotal, tax and
total are computed in full precision; formatting to dollars happens only at
display time. -/
def update_order_summary (o : Order) (taxRate : ℚ) : ℚ × ℚ × ℚ :=
  let subtotal := o.total
  let tax := subtotal * taxRate
  let total := subtotal + tax
  (subtotal, tax, total)

/-- The mutable fields of `RestaurantApp` that checkout reads and writes:
`self.inventory` and `self.order`. -/
structure AppState where
  inventory : Inventory
  order : Order
  deriving Repr, DecidableEq

/-- The `for p, q in self.order.items` loop of `_on_checkout` (lines
374-382): reduce stock line by line, stopping at the first failure; `k` is
the 1-based index of the current line.  On failure it reports the line
index, the item id, the requested quantity and `get_stock` at that moment;
`none` means the loop ran to completion. -/
def checkoutLines :
    List (Product × Int) → Inventory → Nat → Inventory × Option (Nat × Int × Int × Int)
  | [], inv, _ => (inv, none)
  | (p, q) :: rest, inv, k =>
      if (inv.reduce_stock p.id q).1 then
        checkoutLines rest (inv.reduce_stock p.id q).2 (k + 1)
      else (inv, some (k, p.id, q, inv.get_stock p.id))

/-- Mirrors `RestaurantApp._on_checkout` (lines 360-390) along the path on
which the operator confirms the dialog: an empty order is rejected up front
before any stock access; then the line loop runs; if every line succeeded
the order is replaced by a fresh empty `Order` (the for-else branch),
otherwise the inventory keeps the partial decrements and the order is left
exactly as it was. -/
def on_checkout (s : AppState) : AppState × CheckoutResult :=
  if s.order.items.isEmpty then (s, CheckoutResult.emptyOrder)
  else
    match checkoutLines s.order.items s.inventory 1 with
    | (inv2, none) => (⟨inv2, ⟨[]⟩⟩, CheckoutResult.committedFull)
    | (inv2, some (k, pid, rq, avail)) =>
        (⟨inv2, s.order⟩, CheckoutResult.failedAtLine k pid rq avail)

/-- Sequential application of the stock decrements of a list of ticket
lines, keeping whatever each `reduce_stock` call left behind. -/
def applyLines : List (Product × Int) → Inventory → Inventory
  | [], inv => inv
  | pq :: rest, inv => applyLines rest (inv.reduce_stock pq.1.id pq.2).2

/-- Whether the decrement of line `i` (0-based) succeeds once the lines
before it have been applied to the inventory. -/
def lineSucceeds (lines : List (Product × Int)) (inv : Inventory) (i : Nat) : Bool :=
  match lines[i]? with
  | some pq => ((applyLines (lines.take i) inv).reduce_stock pq.1.id pq.2).1
  | none => false

/-- Total quantity a ticket requests for a given item id. -/
def ticketQty : List (Product × Int) → Int → Int
  | [], _ => 0
  | pq :: rest, pid => (if pq.1.id = pid then pq.2 else 0) + ticketQty rest pid

/-- Sequential application of a list of (id, qty) decrement calls. -/
def applyCalls : List (Int × Int) → Inventory → Inventory
  | [], inv => inv
  | c :: rest, inv => applyCalls rest (inv.reduce_stock c.1 c.2).2

/-- Every product in the inventory has non-negative stock. -/
def Inventory.allNonneg (inv : Inventory) : Prop :=
  ∀ p ∈ inv.products, 0 ≤ p.stock

/-! ## Theorems -/

/-- Updating the stock of the first product with the given id changes what
`findProduct` sees at that id accordingly. -/
theorem findProduct_update_self (l : List Product) (pid qty : Int) (p : Product)
    (h : findProduct l pid = some p) :
    findProduct (updateStockFirst l pid qty) pid =
      some { p with stock := p.stock - qty } := by
  induction l with
  | nil => simp [findProduct] at h
  | cons a as ih =>
    by_cases ha : a.id = pid
    · simp [findProduct, ha] at h
      subst h
      simp [updateStockFirst, findProduct, ha]
    · simp only [findProduct, if_neg ha] at h
      simp [updateStockFirst, findProduct, ha, ih h]

/-- Updating the stock at one id leaves `findProduct` at every other id
unchanged. -/
theorem findProduct_update_ne (l : List Product) (pid qty pid2 : Int)
    (h : pid2 ≠ pid) :
    findProduct (updateStockFirst l pid qty) pid2 = findProduct l pid2 := by
  induction l with
  | nil => rfl
  | cons a as ih =>
    by_cases ha : a.id = pid
    · simp [updateStockFirst, findProduct, ha, Ne.symm h]
    · by_cases hb : a.id = pid2
      · simp [updateStockFirst, findProduct, ha, hb, h]
      · simp [updateStockFirst, findProduct, ha, hb, h, ih]

/-- Failure branch of `reduce_stock`: absent id, non-positive quantity, or
insufficient stock each yield `(false, inv)` with the inventory unchanged. -/
theorem reduce_stock_fail (inv : Inventory) (pid qty : Int)
    (h : inv.get_product pid = none ∨ qty ≤ 0 ∨ inv.get_stock pid < qty) :
    inv.reduce_stock pid qty = (false, inv) := by
  unfold Inventory.reduce_stock
  cases hp : inv.get_product pid with
  | none => rfl
  | some p =>
    rcases h with h | h | h
    · rw [hp] at h
      cases h
    · simp [h]
    · have hs : inv.get_stock pid = p.stock := by
        simp [Inventory.get_stock, hp]
      rw [hs] at h
      by_cases hq : qty ≤ 0
      · simp [hq]
      · have : ¬ p.stock ≥ qty := by omega
        simp [hq, this]

/-- Success branch of `reduce_stock`: present id, positive quantity and
sufficient stock yield `true` together with the first-occurrence update. -/
theorem reduce_stock_success (inv : Inventory) (pid qty : Int) (p : Product)
    (hp : inv.get_product pid = some p) (h1 : 0 < qty) (h2 : qty ≤ p.stock) :
    inv.reduce_stock pid qty =
      (true, ⟨updateStockFirst inv.products pid qty⟩) := by
  unfold Inventory.reduce_stock
  rw [hp]
  have hq : ¬ qty ≤ 0 := by omega
  have hs : p.stock ≥ qty := h2
  simp [hq, hs]

/-- Reading the updated inventory at the decremented id. -/
theorem get_stock_update_self (inv : Inventory) (pid qty : Int) (p : Product)
    (hp : inv.get_product pid = some p) :
    (Inventory.mk (updateStockFirst inv.products pid qty)).get_stock pid =
      p.stock - qty := by
  have h := findProduct_update_self inv.products pid qty p hp
  simp [Inventory.get_stock, Inventory.get_product, h]

/-- Reading the updated inventory at any other id. -/
theorem get_stock_update_ne (inv : Inventory) (pid qty pid2 : Int)
    (h : pid2 ≠ pid) :
    (Inventory.mk (updateStockFirst inv.products pid qty)).get_stock pid2 =
      inv.get_stock pid2 := by
  simp [Inventory.get_stock, Inventory.get_product,
    findProduct_update_ne inv.products pid qty pid2 h]

/-- A successful `reduce_stock` lowers the stock read at the called id by
exactly the requested quantity. -/
theorem reduce_stock_snd_get_stock_self (inv : Inventory) (pid qty : Int)
    (h : (inv.reduce_stock pid qty).1 = true) :
    (inv.reduce_stock pid qty).2.get_stock pid = inv.get_stock pid - qty := by
  cases hp : inv.get_product pid with
  | none =>
    rw [reduce_stock_fail inv pid qty (Or.inl hp)] at h
    simp at h
  | some p =>
    have hread : inv.get_stock pid = p.stock := by
      simp [Inventory.get_stock, hp]
    by_cases hq : qty ≤ 0
    · rw [reduce_stock_fail inv pid qty (Or.inr (Or.inl hq))] at h
      simp at h
    · by_cases hs : qty ≤ p.stock
      · rw [reduce_stock_success inv pid qty p hp (by omega) hs, hread]
        exact get_stock_update_self inv pid qty p hp
      · rw [reduce_stock_fail inv pid qty (Or.inr (Or.inr (by omega)))] at h
        simp at h

/-- `reduce_stock` never changes the stock read at a different id, whether
it succeeds or fails. -/
theorem reduce_stock_snd_get_stock_ne (inv : Inventory) (pid qty pid2 : Int)
    (h : pid2 ≠ pid) :
    (inv.reduce_stock pid qty).2.get_stock pid2 = inv.get_stock pid2 := by
  cases hp : inv.get_product pid with
  | none => rw [reduce_stock_fail inv pid qty (Or.inl hp)]
  | some p =>
    have hread : inv.get_stock pid = p.stock := by
      simp [Inventory.get_stock, hp]
    by_cases hq : qty ≤ 0
    · rw [reduce_stock_fail inv pid qty (Or.inr (Or.inl hq))]
    · by_cases hs : qty ≤ p.stock
      · rw [reduce_stock_success inv pid qty p hp (by omega) hs]
        exact get_stock_update_ne inv pid qty pid2 h
      · rw [reduce_stock_fail inv pid qty (Or.inr (Or.inr (by omega)))]

/-- CLAIM C2: `reduce_stock(id, qty)` returns `false` and leaves the
inventory completely unchanged when the id is absent, `qty ≤ 0`, or `qty`
exceeds the item's current stock; otherwise it subtracts `qty` from that
item's stock (touching no other id) and returns `true`. -/
theorem reduce_stock_spec (inv : Inventory) (pid qty : Int) :
    ((inv.get_product pid = none ∨ qty ≤ 0 ∨ inv.get_stock pid < qty) →
      inv.reduce_stock pid qty = (false, inv)) ∧
    (∀ p, inv.get_product pid = some p → 0 < qty → qty ≤ p.stock →
      inv.reduce_stock pid qty = (true, ⟨updateStockFirst inv.products pid qty⟩) ∧
      (inv.reduce_stock pid qty).2.get_stock pid = inv.get_stock pid - qty ∧
      ∀ pid2, pid2 ≠ pid →
        (inv.reduce_stock pid qty).2.get_stock pid2 = inv.get_stock pid2) := by
  refine ⟨reduce_stock_fail inv pid qty, fun p hp h1 h2 => ?_⟩
  have hok := reduce_stock_success inv pid qty p hp h1 h2
  refine ⟨hok, reduce_stock_snd_get_stock_self inv pid qty (by rw [hok]), ?_⟩
  intro pid2 hne
  exact reduce_stock_snd_get_stock_ne inv pid qty pid2 hne

/-- Witness for C2: a successful decrement and an absent-id failure at
concrete inventories. -/
theorem reduce_stock_spec_witness :
    Inventory.reduce_stock ⟨[⟨1, "X", 3, 5⟩]⟩ 1 3 =
      (true, ⟨updateStockFirst [⟨1, "X", 3, 5⟩] 1 3⟩) ∧
    Inventory.reduce_stock ⟨[⟨1, "X", 3, 5⟩]⟩ 9 1 =
      (false, ⟨[⟨1, "X", 3, 5⟩]⟩) :=
  ⟨((reduce_stock_spec ⟨[⟨1, "X", 3, 5⟩]⟩ 1 3).2 ⟨1, "X", 3, 5⟩ rfl
      (by decide) (by decide)).1,
   (reduce_stock_spec ⟨[⟨1, "X", 3, 5⟩]⟩ 9 1).1 (Or.inl rfl)⟩

/-- When no product of a list prefix carries the id, `findProduct` passes
over the prefix untouched. -/
theorem findProduct_append_not_found (l1 l2 : List Product) (pid : Int)
    (h : ∀ q ∈ l1, q.id ≠ pid) :
    findProduct (l1 ++ l2) pid = findProduct l2 pid := by
  induction l1 with
  | nil => rfl
  | cons a as ih =>
    have ha : a.id ≠ pid := h a (by simp)
    simp only [List.cons_append, findProduct, if_neg ha]
    exact ih fun q hq => h q (by simp [hq])

/-- When no product of a list prefix carries the id, `updateStockFirst`
copies the prefix verbatim and recurses past it. -/
theorem updateStockFirst_append_not_found (l1 l2 : List Product) (pid qty : Int)
    (h : ∀ q ∈ l1, q.id ≠ pid) :
    updateStockFirst (l1 ++ l2) pid qty = l1 ++ updateStockFirst l2 pid qty := by
  induction l1 with
  | nil => rfl
  | cons a as ih =>
    have ha : a.id ≠ pid := h a (by simp)
    simp only [List.cons_append, updateStockFirst, if_neg ha, List.cons.injEq,
      true_and]
    exact ih fun q hq => h q (by simp [hq])

/-- CLAIM C10: with duplicate ids in the product list, `get_product`
returns the first matching product in list order, `get_stock` reads that
occurrence, and a successful `reduce_stock` mutates only that occurrence —
every later duplicate is passed through unchanged. -/
theorem first_duplicate_wins (l1 l2 : List Product) (p : Product)
    (pid qty : Int) (h1 : ∀ q ∈ l1, q.id ≠ pid) (h2 : p.id = pid) :
    (Inventory.mk (l1 ++ p :: l2)).get_product pid = some p ∧
    (Inventory.mk (l1 ++ p :: l2)).get_stock pid = p.stock ∧
    (0 < qty → qty ≤ p.stock →
      (Inventory.mk (l1 ++ p :: l2)).reduce_stock pid qty =
        (true, Inventory.mk (l1 ++ { p with stock := p.stock - qty } :: l2))) := by
  have hfind : (Inventory.mk (l1 ++ p :: l2)).get_product pid = some p := by
    show findProduct (l1 ++ p :: l2) pid = some p
    rw [findProduct_append_not_found l1 (p :: l2) pid h1]
    simp [findProduct, h2]
  refine ⟨hfind, by simp [Inventory.get_stock, hfind], fun hq hs => ?_⟩
  rw [reduce_stock_success _ pid qty p hfind hq hs]
  have hupd : updateStockFirst (l1 ++ p :: l2) pid qty =
      l1 ++ { p with stock := p.stock - qty } :: l2 := by
    rw [updateStockFirst_append_not_found l1 (p :: l2) pid qty h1]
    simp [updateStockFirst, h2]
  rw [hupd]

/-- Witness for C10: two products share id 1; only the first is seen and
decremented, the later duplicate survives verbatim. -/
theorem first_duplicate_wins_witness :
    (Inventory.mk [⟨2, "B", 1, 3⟩, ⟨1, "A", 2, 4⟩, ⟨1, "Adup", 5, 9⟩]).get_product 1 =
      some ⟨1, "A", 2, 4⟩ ∧
    (Inventory.mk [⟨2, "B", 1, 3⟩, ⟨1, "A", 2, 4⟩, ⟨1, "Adup", 5, 9⟩]).get_stock 1 = 4 ∧
    (0 < (2 : Int) → (2 : Int) ≤ 4 →
      (Inventory.mk [⟨2, "B", 1, 3⟩, ⟨1, "A", 2, 4⟩, ⟨1, "Adup", 5, 9⟩]).reduce_stock 1 2 =
        (true, Inventory.mk [⟨2, "B", 1, 3⟩, ⟨1, "A", 2, 2⟩, ⟨1, "Adup", 5, 9⟩])) :=
  first_duplicate_wins [⟨2, "B", 1, 3⟩] [⟨1, "Adup", 5, 9⟩] ⟨1, "A", 2, 4⟩ 1 2
    (by decide) rfl

/-- Membership in an updated product list: each element either was already
present or is the first id match with its stock reduced. -/
theorem mem_updateStockFirst (l : List Product) (pid qty : Int) (q : Product)
    (hq : q ∈ updateStockFirst l pid qty) :
    q ∈ l ∨ ∃ p, findProduct l pid = some p ∧
      q = { p with stock := p.stock - qty } := by
  induction l with
  | nil => simp [updateStockFirst] at hq
  | cons a as ih =>
    by_cases ha : a.id = pid
    · rw [updateStockFirst, if_pos ha] at hq
      rcases List.mem_cons.mp hq with hq | hq
      · exact Or.inr ⟨a, by simp [findProduct, ha], hq⟩
      · exact Or.inl (List.mem_cons_of_mem a hq)
    · rw [updateStockFirst, if_neg ha] at hq
      rcases List.mem_cons.mp hq with hq | hq
      · exact Or.inl (hq ▸ List.mem_cons_self a as)
      · rcases ih hq with hin | ⟨p, hp, he⟩
        · exact Or.inl (List.mem_cons_of_mem a hin)
        · exact Or.inr ⟨p, by simp [findProduct, ha, hp], he⟩

/-- One `reduce_stock` call keeps every stock non-negative: the failing
branches change nothing and the successful branch subtracts at most the
available stock of the product it rewrites. -/
theorem reduce_stock_preserves_nonneg (inv : Inventory) (pid qty : Int)
    (h : inv.allNonneg) : ((inv.reduce_stock pid qty).2).allNonneg := by
  cases hp : inv.get_product pid with
  | none =>
    rw [reduce_stock_fail inv pid qty (Or.inl hp)]
    exact h
  | some p =>
    have hread : inv.get_stock pid = p.stock := by
      simp [Inventory.get_stock, hp]
    by_cases hq : qty ≤ 0
    · rw [reduce_stock_fail inv pid qty (Or.inr (Or.inl hq))]
      exact h
    · by_cases hs : qty ≤ p.stock
      · rw [reduce_stock_success inv pid qty p hp (by omega) hs]
        intro q hqmem
        rcases mem_updateStockFirst inv.products pid qty q hqmem with hin | ⟨r, hr, he⟩
        · exact h q hin
        · have : r = p := by
            have : inv.get_product pid = some r := hr
            rw [hp] at this
            exact (Option.some.injEq r p ▸ this.symm : _)
          subst this
          subst he
          simpa using by omega
      · rw [reduce_stock_fail inv pid qty (Or.inr (Or.inr (by omega)))]
        exact h

/-- Non-negativity survives any sequence of decrement calls. -/
theorem applyCalls_preserves_nonneg (calls : List (Int × Int)) (inv : Inventory)
    (h : inv.allNonneg) : (applyCalls calls inv).allNonneg := by
  induction calls generalizing inv with
  | nil => exact h
  | cons c rest ih =>
    exact ih _ (reduce_stock_preserves_nonneg inv c.1 c.2 h)

/-- CLAIM C3: starting from a catalog whose stocks are all non-negative,
every sequence of `reduce_stock` calls keeps every stock non-negative, and
any single call that would drive a stock negative (requested quantity above
the current reading) returns failure and leaves the inventory unchanged. -/
theorem stock_never_negative (inv : Inventory) (calls : List (Int × Int))
    (h : inv.allNonneg) :
    (applyCalls calls inv).allNonneg ∧
    ∀ pid qty, inv.get_stock pid < qty →
      inv.reduce_stock pid qty = (false, inv) :=
  ⟨applyCalls_preserves_nonneg calls inv h,
   fun pid qty hlt => reduce_stock_fail inv pid qty (Or.inr (Or.inr hlt))⟩

/-- Witness for C3: an over-large request fails and leaves the concrete
inventory unchanged. -/
theorem stock_never_negative_witness :
    Inventory.reduce_stock ⟨[⟨1, "X", 3, 5⟩]⟩ 1 9 = (false, ⟨[⟨1, "X", 3, 5⟩]⟩) :=
  (stock_never_negative ⟨[⟨1, "X", 3, 5⟩]⟩ []
    (by intro p hp; rcases List.mem_singleton.mp hp with rfl; decide)).2 1 9
    (by decide)

/-- CLAIM C5: checkout on an empty ticket is rejected with the `EmptyOrder`
condition before any stock operation is attempted, and the whole application
state — catalog included — is returned untouched. -/
theorem empty_checkout_rejected (s : AppState) (h : s.order.items = []) :
    on_checkout s = (s, CheckoutResult.emptyOrder) := by
  simp [on_checkout, h]

/-- Witness for C5 at a concrete state. -/
theorem empty_checkout_rejected_witness :
    on_checkout ⟨⟨[⟨1, "X", 3, 5⟩]⟩, ⟨[]⟩⟩ =
      (⟨⟨[⟨1, "X", 3, 5⟩]⟩, ⟨[]⟩⟩, CheckoutResult.emptyOrder) :=
  empty_checkout_rejected ⟨⟨[⟨1, "X", 3, 5⟩]⟩, ⟨[]⟩⟩ rfl

/-- The first line's decrement succeeds exactly when `reduce_stock` does on
the untouched inventory. -/
theorem lineSucceeds_zero (pq : Product × Int) (rest : List (Product × Int))
    (inv : Inventory) :
    lineSucceeds (pq :: rest) inv 0 = (inv.reduce_stock pq.1.id pq.2).1 := by
  simp [lineSucceeds, applyLines]

/-- Shifting `lineSucceeds` past the head line applies that line's
decrement to the inventory. -/
theorem lineSucceeds_cons (pq : Product × Int) (rest : List (Product × Int))
    (inv : Inventory) (i : Nat) :
    lineSucceeds (pq :: rest) inv (i + 1) =
      lineSucceeds rest (inv.reduce_stock pq.1.id pq.2).2 i := by
  simp [lineSucceeds, List.take_succ_cons, applyLines]

/-- Unfolding equation of the checkout loop at a cons cell. -/
theorem checkoutLines_cons (p : Product) (q : Int) (rest : List (Product × Int))
    (inv : Inventory) (k : Nat) :
    checkoutLines ((p, q) :: rest) inv k =
      if (inv.reduce_stock p.id q).1 then
        checkoutLines rest (inv.reduce_stock p.id q).2 (k + 1)
      else (inv, some (k, p.id, q, inv.get_stock p.id)) := rfl

/-- When the lines before index `j` all succeed and line `j` fails, the
checkout loop returns the inventory with exactly the first `j` decrements
applied and reports line `k0 + j` with the stock available there. -/
theorem checkoutLines_fail (lines : List (Product × Int)) (inv : Inventory)
    (j k0 : Nat) (pq : Product × Int) (hpq : lines[j]? = some pq)
    (hsucc : ∀ i, i < j → lineSucceeds lines inv i = true)
    (hfail : lineSucceeds lines inv j = false) :
    checkoutLines lines inv k0 =
      (applyLines (lines.take j) inv,
        some (k0 + j, pq.1.id, pq.2,
          (applyLines (lines.take j) inv).get_stock pq.1.id)) := by
  induction lines generalizing inv j k0 with
  | nil => simp at hpq
  | cons hd rest ih =>
    obtain ⟨p, q⟩ := hd
    cases j with
    | zero =>
      have hpq0 : (p, q) = pq := by simpa using hpq
      have hf : (inv.reduce_stock p.id q).1 = false := by
        rw [← lineSucceeds_zero (p, q) rest inv]
        exact hfail
      rw [checkoutLines_cons, if_neg (by simp [hf])]
      subst hpq0
      simp [applyLines]
    | succ j2 =>
      have h0 : (inv.reduce_stock p.id q).1 = true := by
        have := hsucc 0 (Nat.succ_pos j2)
        rwa [lineSucceeds_zero] at this
      rw [checkoutLines_cons, if_pos h0]
      have hpq2 : rest[j2]? = some pq := by simpa using hpq
      have hsucc2 : ∀ i, i < j2 →
          lineSucceeds rest (inv.reduce_stock p.id q).2 i = true := by
        intro i hi
        have := hsucc (i + 1) (by omega)
        rwa [lineSucceeds_cons] at this
      have hfail2 : lineSucceeds rest (inv.reduce_stock p.id q).2 j2 = false := by
        rw [← lineSucceeds_cons (p, q) rest inv j2]
        exact hfail
      have e1 : applyLines (((p, q) :: rest).take (j2 + 1)) inv =
          applyLines (rest.take j2) (inv.reduce_stock p.id q).2 := by
        simp [List.take_succ_cons, applyLines]
      have e2 : k0 + (j2 + 1) = (k0 + 1) + j2 := by omega
      rw [e1, e2]
      exact ih (inv.reduce_stock p.id q).2 j2 (k0 + 1) hpq2 hsucc2 hfail2

/-- When every line's decrement succeeds, the checkout loop runs to the end
and returns the fully decremented inventory with no failure report. -/
theorem checkoutLines_ok (lines : List (Product × Int)) (inv : Inventory)
    (k0 : Nat)
    (hsucc : ∀ i, i < lines.length → lineSucceeds lines inv i = true) :
    checkoutLines lines inv k0 = (applyLines lines inv, none) := by
  induction lines generalizing inv k0 with
  | nil => rfl
  | cons hd rest ih =>
    obtain ⟨p, q⟩ := hd
    have h0 : (inv.reduce_stock p.id q).1 = true := by
      have := hsucc 0 (by simp)
      rwa [lineSucceeds_zero] at this
    rw [checkoutLines_cons, if_pos h0]
    have hrest : ∀ i, i < rest.length →
        lineSucceeds rest (inv.reduce_stock p.id q).2 i = true := by
      intro i hi
      have := hsucc (i + 1) (by simp; omega)
      rwa [lineSucceeds_cons] at this
    rw [ih (inv.reduce_stock p.id q).2 k0.succ hrest]
    simp [applyLines]

/-- When every line's decrement succeeds, the final reading at any id is
the initial reading minus the total quantity the ticket requested for it. -/
theorem applyLines_get_stock (lines : List (Product × Int)) (inv : Inventory)
    (hsucc : ∀ i, i < lines.length → lineSucceeds lines inv i = true)
    (pid : Int) :
    (applyLines lines inv).get_stock pid =
      inv.get_stock pid - ticketQty lines pid := by
  induction lines generalizing inv with
  | nil => simp [applyLines, ticketQty]
  | cons hd rest ih =>
    obtain ⟨p, q⟩ := hd
    have h0 : (inv.reduce_stock p.id q).1 = true := by
      have := hsucc 0 (by simp)
      rwa [lineSucceeds_zero] at this
    have hrest : ∀ i, i < rest.length →
        lineSucceeds rest (inv.reduce_stock p.id q).2 i = true := by
      intro i hi
      have := hsucc (i + 1) (by simp; omega)
      rwa [lineSucceeds_cons] at this
    have hstep := ih (inv.reduce_stock p.id q).2 hrest
    show (applyLines rest (inv.reduce_stock p.id q).2).get_stock pid = _
    rw [hstep]
    by_cases hp : p.id = pid
    · subst hp
      rw [reduce_stock_snd_get_stock_self inv p.id q h0]
      simp [ticketQty]
      omega
    · rw [reduce_stock_snd_get_stock_ne inv p.id q pid fun hc => hp hc.symm]
      simp [ticketQty, hp]

/-- CLAIM C1: when the first failing decrement is at 1-indexed line `k`,
checkout stops there and reports it: the resulting inventory carries
exactly the decrements of lines 1..k-1 (not rolled back, nothing after `k`
applied), and the ticket keeps all its original lines and quantities. -/
theorem checkout_stops_at_first_failure (inv : Inventory)
    (lines : List (Product × Int)) (k : Nat) (pq : Product × Int)
    (hk : 1 ≤ k) (hpq : lines[k - 1]? = some pq)
    (hsucc : ∀ i, i < k - 1 → lineSucceeds lines inv i = true)
    (hfail : lineSucceeds lines inv (k - 1) = false) :
    on_checkout ⟨inv, ⟨lines⟩⟩ =
      (⟨applyLines (lines.take (k - 1)) inv, ⟨lines⟩⟩,
        CheckoutResult.failedAtLine k pq.1.id pq.2
          ((applyLines (lines.take (k - 1)) inv).get_stock pq.1.id)) := by
  have hck := checkoutLines_fail lines inv (k - 1) 1 pq hpq hsucc hfail
  have hk2 : 1 + (k - 1) = k := by omega
  rw [hk2] at hck
  cases lines with
  | nil => simp at hpq
  | cons hd rest => simp [on_checkout, hck]

/-- Witness for C1, the spec's partial-failure scenario: X has stock 5 and
Y stock 1; the ticket asks for (X,3) then (Y,2); checkout fails at line 2
on Y with 1 available, X's decrement stays applied and the ticket is
unchanged. -/
theorem checkout_stops_at_first_failure_witness :
    on_checkout ⟨⟨[⟨1, "X", 3, 5⟩, ⟨2, "Y", 4, 1⟩]⟩,
        ⟨[(⟨1, "X", 3, 5⟩, 3), (⟨2, "Y", 4, 1⟩, 2)]⟩⟩ =
      (⟨applyLines ([(⟨1, "X", 3, 5⟩, 3), (⟨2, "Y", 4, 1⟩, 2)].take 1)
            ⟨[⟨1, "X", 3, 5⟩, ⟨2, "Y", 4, 1⟩]⟩,
          ⟨[(⟨1, "X", 3, 5⟩, 3), (⟨2, "Y", 4, 1⟩, 2)]⟩⟩,
        CheckoutResult.failedAtLine 2 2 2
          ((applyLines ([(⟨1, "X", 3, 5⟩, 3), (⟨2, "Y", 4, 1⟩, 2)].take 1)
              ⟨[⟨1, "X", 3, 5⟩, ⟨2, "Y", 4, 1⟩]⟩).get_stock 2)) :=
  checkout_stops_at_first_failure ⟨[⟨1, "X", 3, 5⟩, ⟨2, "Y", 4, 1⟩]⟩
    [(⟨1, "X", 3, 5⟩, 3), (⟨2, "Y", 4, 1⟩, 2)] 2 (⟨2, "Y", 4, 1⟩, 2)
    (by decide) rfl (by decide) (by decide)

/-- CLAIM C4: when every line's decrement succeeds on a non-empty ticket,
checkout commits: the result is `CommittedFull`, the order is reset to a
fresh empty ticket, and each item id's stock reading drops by exactly the
total quantity the ticket requested for it. -/
theorem checkout_commits_when_all_succeed (inv : Inventory)
    (lines : List (Product × Int)) (hne : lines ≠ [])
    (hsucc : ∀ i, i < lines.length → lineSucceeds lines inv i = true) :
    on_checkout ⟨inv, ⟨lines⟩⟩ =
      (⟨applyLines lines inv, ⟨[]⟩⟩, CheckoutResult.committedFull) ∧
    ∀ pid, (applyLines lines inv).get_stock pid =
      inv.get_stock pid - ticketQty lines pid := by
  refine ⟨?_, applyLines_get_stock lines inv hsucc⟩
  have hck := checkoutLines_ok lines inv 1 hsucc
  cases lines with
  | nil => exact absurd rfl hne
  | cons hd rest => simp [on_checkout, hck]

/-- Witness for C4, the spec's full-commit scenario: X has stock 5, the
ticket asks for (X,3); checkout commits, the ticket resets, and X's stock
reads 2 afterwards. -/
theorem checkout_commits_when_all_succeed_witness :
    on_checkout ⟨⟨[⟨1, "X", 3, 5⟩]⟩, ⟨[(⟨1, "X", 3, 5⟩, 3)]⟩⟩ =
      (⟨applyLines [(⟨1, "X", 3, 5⟩, 3)] ⟨[⟨1, "X", 3, 5⟩]⟩, ⟨[]⟩⟩,
        CheckoutResult.committedFull) ∧
    (applyLines [(⟨1, "X", 3, 5⟩, 3)] ⟨[⟨1, "X", 3, 5⟩]⟩).get_stock 1 = 2 :=
  ⟨(checkout_commits_when_all_succeed ⟨[⟨1, "X", 3, 5⟩]⟩
      [(⟨1, "X", 3, 5⟩, 3)] (by decide) (by decide)).1,
    by decide⟩

/-- CLAIM C6: a quantity that is not a positive integer — a non-integer
entry (`none`, the `ValueError` branch) or an integer `qty ≤ 0` — is
rejected by `add_to_order` with the `InvalidQuantity` condition and the
ticket's line list is unchanged. -/
theorem invalid_quantity_rejected (o : Order) (product : Product)
    (qtyInput : Option Int)
    (h : qtyInput = none ∨ ∃ q, qtyInput = some q ∧ q ≤ 0) :
    add_to_order o product qtyInput = (o, AddResult.invalidQuantity) := by
  rcases h with h | ⟨q, rfl, hq⟩
  · simp [add_to_order, h]
  · simp [add_to_order, hq]

/-- Witness for C6: a zero quantity and a non-integer entry are both
rejected. -/
theorem invalid_quantity_rejected_witness :
    add_to_order ⟨[]⟩ ⟨1, "X", 3, 5⟩ (some 0) = (⟨[]⟩, AddResult.invalidQuantity) :=
  invalid_quantity_rejected ⟨[]⟩ ⟨1, "X", 3, 5⟩ (some 0)
    (Or.inr ⟨0, rfl, le_refl 0⟩)

/-- CLAIM C7: for every ticket and tax rate, the summary's subtotal is the
sum over lines of current unit price times quantity, the tax is
`subtotal * taxRate`, the total is `subtotal + tax`, the exact identity
`subtotal * (1 + taxRate) = total` holds in full precision, and adding a
line moves the subtotal by exactly that line's `price * qty`. -/
theorem totals_consistency (o : Order) (taxRate : ℚ) (product : Product) (qty : Int) :
    (update_order_summary o taxRate).1 = (o.items.map fun pq => pq.1.price * (pq.2 : ℚ)).sum ∧
    (update_order_summary o taxRate).2.1 = o.total * taxRate ∧
    (update_order_summary o taxRate).2.2 = o.total + o.total * taxRate ∧
    o.total * (1 + taxRate) = (update_order_summary o taxRate).2.2 ∧
    (o.add_item product qty).total = o.total + product.price * (qty : ℚ) := by
  refine ⟨rfl, rfl, rfl, by simp [update_order_summary]; ring, ?_⟩
  simp [Order.add_item, Order.total]

/-- CLAIM C8: removing the last line immediately after adding one restores
the ticket exactly, and removing from an empty ticket is a no-op rather
than an error. -/
theorem remove_last_after_add (o : Order) (product : Product) (qty : Int) :
    (o.add_item product qty).remove_last_item = o ∧
    (Order.mk []).remove_last_item = Order.mk [] := by
  constructor
  · obtain ⟨items⟩ := o
    simp [Order.add_item, Order.remove_last_item]
  · rfl

/-- CLAIM C9: every `add_item` call appends a new line at the end without
merging, so the line count grows by exactly one, and two adds of the same
item leave two distinct lines. -/
theorem add_line_appends (o : Order) (product : Product) (q1 q2 : Int) :
    (o.add_item product q1).items = o.items ++ [(product, q1)] ∧
    (o.add_item product q1).items.length = o.items.length + 1 ∧
    ((o.add_item product q1).add_item product q2).items =
      o.items ++ [(product, q1), (product, q2)] := by
  refine ⟨rfl, by simp [Order.add_item], by simp [Order.add_item]⟩

end Restaurant
